import Mathlib

/-!
# Verification of the multi-table STARK runtime (`core/src/stark/runtime.rs`)

This file gives a shallow embedding of `Runtime::segment_chips`,
`Runtime::global_chips`, `Runtime::prove` and `Runtime::verify` from
`core/src/stark/runtime.rs`, and proves the specified properties about them.

External collaborators that are not part of the analysed module
(`Prover::prove`, `Prover::commit_main`, `Verifier::verify`, the Fiat–Shamir
challenger, the PCS `commit_batches`, trace generation and sharding of the
individual chips) are modelled as abstract parameters/oracles: the embedding
fixes only the control flow, data flow and error handling that
`runtime.rs` itself implements.
-/

/-- The names of the concrete chip types instantiated by the registry in
`runtime.rs`.  Chips are stateless value types; for the properties proved
here only their identity matters, so each is represented by a tag. -/
inductive ChipName where
  | program
  | cpu
  | sha_extend
  | sha_compress
  | ed_add
  | ed_decompress
  | k256_decompress
  | weierstrass_add
  | weierstrass_double
  | keccak_permute
  | add
  | sub
  | bitwise
  | divrem
  | mul
  | shift_right
  | shift_left
  | lt
  | field
  | bytes
  | memory_init
  | memory_finalize
  | program_memory_init
  deriving DecidableEq, Repr, Fintype

/-- `pub const NUM_CHIPS: usize = 20;` from `runtime.rs`. -/
def NUM_CHIPS : Nat := 20

namespace Runtime

/-- Embedding of `Runtime::segment_chips`: the fixed ordered array of the 20
local chips, in exactly the order of the array literal in the source. -/
def segment_chips : List ChipName :=
  [ ChipName.program
  , ChipName.cpu
  , ChipName.sha_extend
  , ChipName.sha_compress
  , ChipName.ed_add
  , ChipName.ed_decompress
  , ChipName.k256_decompress
  , ChipName.weierstrass_add
  , ChipName.weierstrass_double
  , ChipName.keccak_permute
  , ChipName.add
  , ChipName.sub
  , ChipName.bitwise
  , ChipName.divrem
  , ChipName.mul
  , ChipName.shift_right
  , ChipName.shift_left
  , ChipName.lt
  , ChipName.field
  , ChipName.bytes ]

/-- Embedding of `Runtime::global_chips`: the three cross-segment
memory-consistency chips (`MemoryGlobalChip` with kinds `Init`, `Finalize`,
`Program`), in source order. -/
def global_chips : List ChipName :=
  [ ChipName.memory_init
  , ChipName.memory_finalize
  , ChipName.program_memory_init ]

end Runtime

/-- The cross-chip dependency documented in the registry's source comment:
"Some operations, like div, depend on others like mul for verification.
To prevent race conditions and ensure correct execution sequences, dependent
operations are positioned before their dependencies."  The only dependency
named by the module is `divrem` → `mul`. -/
def chip_depends_on : ChipName → ChipName → Bool
  | ChipName.divrem, ChipName.mul => true
  | _, _ => false

/-!
## Embedding of `Runtime::verify`

Type parameters: `C` is the opaque PCS commitment type, `EF` the challenge
(extension-field) type, `VE` the chip-level `VerificationError` type and
`Chal` the challenger (Fiat–Shamir transcript) state.  The transcript's
`observe` and the external `Verifier::verify` are oracle parameters.
`Verifier::verify` receives its challenger by `&mut challenger.clone()` in the
source, so in the embedding it receives the start state of that clone and any
internal transcript advancement is invisible to the caller.
-/

/-- The part of `SegmentProof::commitment` that `runtime.rs` reads
(`proof.commitment.main_commit`); the permutation/quotient commitments are
opaque to this module. -/
structure SegmentCommitment (C : Type) where
  main_commit : C
  deriving DecidableEq, Repr

/-- The fields of `SegmentProof` read by `runtime.rs`: the commitment bundle,
the shard count `n`, and the per-shard cumulative sums (`commulative_sums`,
spelled as in the source); opened values and the opening proof are opaque to
this module and consumed only by the external `Verifier::verify`. -/
structure SegmentProof (C : Type) (EF : Type) where
  commitment : SegmentCommitment C
  n : Nat
  commulative_sums : List EF
  deriving DecidableEq, Repr

/-- `ProgramVerificationError` from `runtime.rs`, parameterized by the
chip-level `VerificationError` type `VE`. -/
inductive ProgramVerificationError (VE : Type) where
  | InvalidSegmentProof (e : VE)
  | InvalidGlobalProof (e : VE)
  | NonZeroCommulativeSum
  deriving DecidableEq, Repr

/-- The chip extracted at index `i` by the placeholder-swap trick
(`mem::replace(&mut chips[i], placeholder)` on a fresh
`Self::segment_chips()` array): simply the `i`-th registry chip.  `i` is
always in range where this is used (it indexes a zip with the registry
list); the default is irrelevant. -/
def extractedChip (i : Nat) : ChipName :=
  Runtime.segment_chips.getD i ChipName.program

/-- The `chips_v2` vector built for a chip at registry index `i` and a proof
with shard count `n`: `n` copies of the extracted chip, one per shard. -/
def chips_v2 (i n : Nat) : List ChipName :=
  List.replicate n (extractedChip i)

/-- One recorded sub-protocol call: the chip vector, the challenger state the
clone started from, and the proof it was checked against. -/
abbrev SubCall (C EF Chal : Type) : Type :=
  List ChipName × Chal × SegmentProof C EF

/-- The per-segment verification loop of `Runtime::verify` (the `for` loop
over `segment_chips.into_iter().zip(segments_proofs).enumerate()`), with each
performed `Verifier::verify` call recorded.  The loop short-circuits (`?`)
on the first failing chip; `challenger.clone()` means every iteration hands
the sub-verifier the same state `challenger`. -/
def verifySegLoop {C EF VE Chal : Type}
    (vVerify : List ChipName → Chal → SegmentProof C EF → Option VE)
    (challenger : Chal) :
    List (Nat × ChipName × SegmentProof C EF) →
      List (SubCall C EF Chal) × Option VE
  | [] => ([], none)
  | (i, _chip, proof) :: rest =>
    match vVerify (chips_v2 i proof.n) challenger proof with
    | some e => ([(chips_v2 i proof.n, challenger, proof)], some e)
    | none =>
      let r := verifySegLoop vVerify challenger rest
      ((chips_v2 i proof.n, challenger, proof) :: r.1, r.2)

/-- The challenger state after the observation step of `Runtime::verify`:
under the `perf` feature every supplied segment proof's main commitment is
observed, in order; without it the challenger is untouched. -/
def postObserve {C EF Chal : Type} (perf : Bool) (observe : Chal → C → Chal)
    (challenger : Chal) (segments_proofs : List (SegmentProof C EF)) : Chal :=
  if perf then
    segments_proofs.foldl
      (fun ch proof => observe ch proof.commitment.main_commit) challenger
  else challenger

/-- The final cumulative sum computed by `Runtime::verify`: `0` without the
`perf` feature; with it, the sum of every supplied segment proof's per-shard
cumulative sums plus the global proof's, exactly as the two `+=` loops
accumulate it. -/
def verifySum {C EF : Type} [AddCommMonoid EF] (perf : Bool)
    (segments_proofs : List (SegmentProof C EF))
    (global_proof : SegmentProof C EF) : EF :=
  if perf then
    (segments_proofs.foldl (fun s proof => s + proof.commulative_sums.sum) 0)
      + global_proof.commulative_sums.sum
  else 0

/-- The observable outcome of one `Runtime::verify` call: the returned
`Result`, the caller's challenger state when the call returns, and the
recorded sub-protocol calls (per-segment loop calls, and the global call when
it is reached). -/
structure VerifyResult (C EF VE Chal : Type) where
  result : Except (ProgramVerificationError VE) Unit
  challenger : Chal
  segCalls : List (SubCall C EF Chal)
  globalCall : Option (SubCall C EF Chal)

/-- Embedding of `Runtime::verify`.  Steps, as in the source: (1) under
`perf`, observe every supplied proof's main commitment into the caller's
challenger; (2) for each `(chip, proof)` pair of
`segment_chips.zip(segments_proofs)`, build `chips_v2` (`proof.n` copies of
the extracted chip) and run `Verifier::verify` on a clone of the challenger,
short-circuiting with `InvalidSegmentProof`; (3) run `Verifier::verify` for
the global chips on a clone, short-circuiting with `InvalidGlobalProof`;
(4) compute the cumulative sum and return `Ok(())` iff it is zero, else
`Err(NonZeroCommulativeSum)`. -/
def Runtime.verify {C EF VE Chal : Type} [AddCommMonoid EF] [DecidableEq EF]
    (perf : Bool) (observe : Chal → C → Chal)
    (vVerify : List ChipName → Chal → SegmentProof C EF → Option VE)
    (challenger : Chal) (segments_proofs : List (SegmentProof C EF))
    (global_proof : SegmentProof C EF) : VerifyResult C EF VE Chal :=
  let challenger1 := postObserve perf observe challenger segments_proofs
  let seg := verifySegLoop vVerify challenger1
      (Runtime.segment_chips.zip segments_proofs).enum
  match seg.2 with
  | some e =>
    { result := Except.error (ProgramVerificationError.InvalidSegmentProof e)
      challenger := challenger1
      segCalls := seg.1
      globalCall := none }
  | none =>
    match vVerify Runtime.global_chips challenger1 global_proof with
    | some e =>
      { result := Except.error (ProgramVerificationError.InvalidGlobalProof e)
        challenger := challenger1
        segCalls := seg.1
        globalCall := some (Runtime.global_chips, challenger1, global_proof) }
    | none =>
      { result :=
          if verifySum perf segments_proofs global_proof = 0 then
            Except.ok ()
          else
            Except.error ProgramVerificationError.NonZeroCommulativeSum
        challenger := challenger1
        segCalls := seg.1
        globalCall := some (Runtime.global_chips, challenger1, global_proof) }

/-!
## Embedding of `Runtime::prove`

Further type parameters: `Seg` is the execution record (`Segment`) type,
`PD` the prover-side PCS data, `Trace` the trace matrix type and `Pf` the
proof type produced by the external `Prover::prove`.  All chip- and
PCS-level operations that `prove` invokes are oracle parameters collected in
`ProveOracle`.
-/

/-- `MainData` as consumed by `runtime.rs`: the committed trace matrices,
the commitment, the opaque prover data and the shard count `n`. -/
structure MainData (C PD Trace : Type) where
  traces : List Trace
  main_commit : C
  main_data : PD
  n : Nat

/-- The external operations invoked by `Runtime::prove`, as oracles.
`generate_trace` takes a record by `&mut` in the source (chips may append
byte-lookup side-events), so it returns the trace together with the updated
record.  `commit_main` likewise mutates the record it is given. -/
structure ProveOracle (Seg C PD Trace Pf Chal : Type) where
  generate_trace : ChipName → Seg → Trace × Seg
  shard : ChipName → Seg → List Seg
  commit_batches : List Trace → C × PD
  observe : Chal → C → Chal
  prover_prove : List ChipName → Chal → MainData C PD Trace → Pf
  commit_main : List ChipName → Seg → MainData C PD Trace × Seg

/-- Events of one `prove` call, in the order the sequential skeleton of the
source performs them (the parallel chip iterations are joined by `collect`
barriers, so each block is completed before the next begins; within the
commit and local-prove blocks the registry order is one valid
linearization). -/
inductive ProveEvent (C : Type) where
  | commit_chip (i : Nat)
  | observe_commit (i : Nat) (c : C)
  | local_prove (i : Nat)
  | global_commit
  | global_prove

/-- The protocol phase of a `prove` event: commits (0), observations (1),
local per-chip sub-protocols (2), global commitment (3), global proof (4). -/
def phaseOf {C : Type} : ProveEvent C → Nat
  | ProveEvent.commit_chip _ => 0
  | ProveEvent.observe_commit _ _ => 1
  | ProveEvent.local_prove _ => 2
  | ProveEvent.global_commit => 3
  | ProveEvent.global_prove => 4

/-- The registry index carried by an observation event, if any. -/
def observeIdx {C : Type} : ProveEvent C → Option Nat
  | ProveEvent.observe_commit i _ => some i
  | _ => none

/-- The registry index carried by a local sub-protocol event, if any. -/
def localProveIdx {C : Type} : ProveEvent C → Option Nat
  | ProveEvent.local_prove i => some i
  | _ => none

/-- The initial fill pass of `prove`: every registry chip's `generate_trace`
is applied to the segment once, in registry order (the produced traces are
discarded; only the side effects on the record matter here). -/
def fillPass {Seg C PD Trace Pf Chal : Type}
    (O : ProveOracle Seg C PD Trace Pf Chal) (segment : Seg) : Seg :=
  Runtime.segment_chips.foldl (fun s chip => (O.generate_trace chip s).2) segment

/-- The commit step of `prove` for one chip: shard the (already filled)
segment, generate one trace per shard (mutating only that shard's copy),
commit all traces in one batched call, and record the shard count `n`. -/
def commitChip {Seg C PD Trace Pf Chal : Type}
    (O : ProveOracle Seg C PD Trace Pf Chal) (segment : Seg)
    (chip : ChipName) : MainData C PD Trace :=
  let shards := O.shard chip segment
  let n := shards.length
  let traces := shards.map (fun shard => (O.generate_trace chip shard).1)
  let cm := O.commit_batches traces
  { traces := traces, main_commit := cm.1, main_data := cm.2, n := n }

/-- The per-chip `MainData` list computed by `prove` (the `main_datas`
vector), over the fill-pass result. -/
def proveMainDatas {Seg C PD Trace Pf Chal : Type}
    (O : ProveOracle Seg C PD Trace Pf Chal) (segment : Seg) :
    List (MainData C PD Trace) :=
  Runtime.segment_chips.map (commitChip O (fillPass O segment))

/-- The shared challenger after `prove`'s observation loop: the main
commitment of every chip's `MainData`, folded in registry order into the
caller's challenger. -/
def proveChallenger1 {Seg C PD Trace Pf Chal : Type}
    (O : ProveOracle Seg C PD Trace Pf Chal) (segment : Seg)
    (challenger : Chal) : Chal :=
  (proveMainDatas O segment).foldl (fun ch md => O.observe ch md.main_commit)
    challenger

/-- The observable outcome of one `Runtime::prove` call: the returned proofs,
the final states of the two records and of the caller's challenger, the
per-chip `MainData`, the event trace, and the challenger state handed (as a
clone) to each `Prover::prove` sub-call (the 20 local ones, then the global
one). -/
structure ProveResult (Seg C PD Trace Pf Chal : Type) where
  local_proofs : List Pf
  global_proof : Pf
  segment : Seg
  global_segment : Seg
  challenger : Chal
  main_datas : List (MainData C PD Trace)
  events : List (ProveEvent C)
  subChallengers : List Chal

/-- Embedding of `Runtime::prove`.  Steps, as in the source: (1) fill pass
over `self.segment`; (2) per chip (parallel, joined): shard, trace the shard
copies, commit, yielding `main_datas`; (3) observe every commitment in
registry order into the caller's challenger; (4) per chip (parallel,
joined): run `Prover::prove` on `chips_v2` and a clone of the challenger;
(5) commit and prove the global chips (mutating `self.global_segment`)
against a clone of the same challenger. -/
def Runtime.prove {Seg C PD Trace Pf Chal : Type}
    (O : ProveOracle Seg C PD Trace Pf Chal)
    (segment global_segment : Seg) (challenger : Chal) :
    ProveResult Seg C PD Trace Pf Chal :=
  let seg1 := fillPass O segment
  let main_datas := proveMainDatas O segment
  let challenger1 := proveChallenger1 O segment challenger
  let local_proofs := main_datas.enum.map
    (fun p => O.prover_prove (chips_v2 p.1 p.2.n) challenger1 p.2)
  let gm := O.commit_main Runtime.global_chips global_segment
  let global_proof := O.prover_prove Runtime.global_chips challenger1 gm.1
  { local_proofs := local_proofs
    global_proof := global_proof
    segment := seg1
    global_segment := gm.2
    challenger := challenger1
    main_datas := main_datas
    events :=
      (List.range NUM_CHIPS).map ProveEvent.commit_chip
        ++ main_datas.enum.map
            (fun p => ProveEvent.observe_commit p.1 p.2.main_commit)
        ++ (List.range NUM_CHIPS).map ProveEvent.local_prove
        ++ [ProveEvent.global_commit, ProveEvent.global_prove]
    subChallengers :=
      main_datas.map (fun _ => challenger1) ++ [challenger1] }

/-!
## Helper lemmas about the verification loop and the cumulative sum
-/

/-- The check `Runtime::verify` performs for the zipped pair `(i, chip, proof)`. -/
def segCheck {C EF VE Chal : Type}
    (vVerify : List ChipName → Chal → SegmentProof C EF → Option VE)
    (challenger : Chal) (x : Nat × ChipName × SegmentProof C EF) : Option VE :=
  vVerify (chips_v2 x.1 x.2.2.n) challenger x.2.2

/-- A small concrete `ProveOracle` instance used by the witnesses: the record
is a counter, `generate_trace` bumps it, `shard` splits into two shards and
the commitment is the sum of the traces. -/
def oracleExample : ProveOracle Nat Nat Unit Nat Unit Unit :=
  { generate_trace := fun _ s => (s, s + 1)
    shard := fun _ s => [s, s + 1]
    commit_batches := fun ts => (ts.sum, ())
    observe := fun ch _ => ch
    prover_prove := fun _ _ _ => ()
    commit_main := fun _ s => (⟨[], 0, (), 0⟩, s) }

/-- A trivial concrete `ProveOracle` instance over `Unit`, used by the
witnesses. -/
def oracleUnit : ProveOracle Unit Unit Unit Unit Unit Unit :=
  { generate_trace := fun _ s => ((), s)
    shard := fun _ _ => []
    commit_batches := fun _ => ((), ())
    observe := fun ch _ => ch
    prover_prove := fun _ _ _ => ()
    commit_main := fun _ s => (⟨[], (), (), 0⟩, s) }


/-- C5: Every invocation of the chip registry yields the same result:
`segment_chips` always returns the same 20 chips in the same fixed order and
`global_chips` always returns the same 3 chips (memory initialization, memory
finalization, program-memory initialization) in the same order; both are
constants of the program, so any two invocations within one process —
including a `prove` call and its paired `verify` call — see identical
orderings. -/
theorem registry_deterministic :
    Runtime.segment_chips =
      [ ChipName.program, ChipName.cpu, ChipName.sha_extend,
        ChipName.sha_compress, ChipName.ed_add, ChipName.ed_decompress,
        ChipName.k256_decompress, ChipName.weierstrass_add,
        ChipName.weierstrass_double, ChipName.keccak_permute,
        ChipName.add, ChipName.sub, ChipName.bitwise, ChipName.divrem,
        ChipName.mul, ChipName.shift_right, ChipName.shift_left,
        ChipName.lt, ChipName.field, ChipName.bytes ] ∧
    Runtime.global_chips =
      [ ChipName.memory_init, ChipName.memory_finalize,
        ChipName.program_memory_init ] ∧
    Runtime.segment_chips.length = NUM_CHIPS ∧
    Runtime.global_chips.length = 3 := by
  refine ⟨rfl, rfl, rfl, rfl⟩

/-- C7: In the ordered collection returned by `segment_chips`, the
division/remainder chip is positioned strictly before the multiplication chip
on which its correctness check depends, and more generally every chip that
depends on another chip's output (per the registry's documented dependency
relation) is placed strictly before the chip it depends on. -/
theorem divrem_before_mul :
    Runtime.segment_chips.indexOf ChipName.divrem <
      Runtime.segment_chips.indexOf ChipName.mul ∧
    ∀ a b : ChipName, chip_depends_on a b = true →
      Runtime.segment_chips.indexOf a < Runtime.segment_chips.indexOf b := by
  constructor
  · decide
  · decide

/-- Witness for C7 at the concrete dependent pair (`divrem`, `mul`). -/
theorem divrem_before_mul_witness :
    Runtime.segment_chips.indexOf ChipName.divrem <
      Runtime.segment_chips.indexOf ChipName.mul :=
  divrem_before_mul.2 ChipName.divrem ChipName.mul (by decide)

theorem verifySegLoop_snd_none_iff {C EF VE Chal : Type}
    (vVerify : List ChipName → Chal → SegmentProof C EF → Option VE)
    (challenger : Chal) (l : List (Nat × ChipName × SegmentProof C EF)) :
    (verifySegLoop vVerify challenger l).2 = none ↔
      ∀ x ∈ l, segCheck vVerify challenger x = none := by
  induction l with
  | nil => simp [verifySegLoop]
  | cons hd tl ih =>
    obtain ⟨i, chip, proof⟩ := hd
    simp only [verifySegLoop, segCheck] at *
    cases h : vVerify (chips_v2 i proof.n) challenger proof with
    | some e => simp [h]
    | none => simpa [h] using ih

theorem verifySegLoop_first_fail {C EF VE Chal : Type}
    (vVerify : List ChipName → Chal → SegmentProof C EF → Option VE)
    (challenger : Chal) (l₁ l₂ : List (Nat × ChipName × SegmentProof C EF))
    (x : Nat × ChipName × SegmentProof C EF) (e : VE)
    (hpass : ∀ y ∈ l₁, segCheck vVerify challenger y = none)
    (hfail : segCheck vVerify challenger x = some e) :
    (verifySegLoop vVerify challenger (l₁ ++ x :: l₂)).2 = some e := by
  induction l₁ with
  | nil =>
    obtain ⟨i, chip, proof⟩ := x
    simp only [segCheck] at hfail
    simp [verifySegLoop, hfail]
  | cons hd tl ih =>
    obtain ⟨i, chip, proof⟩ := hd
    have hhd : vVerify (chips_v2 i proof.n) challenger proof = none := by
      simpa [segCheck] using hpass (i, chip, proof) (by simp)
    simp only [List.cons_append, verifySegLoop, hhd]
    exact ih (fun y hy => hpass y (by simp [hy]))

theorem verifySegLoop_calls_mem {C EF VE Chal : Type}
    (vVerify : List ChipName → Chal → SegmentProof C EF → Option VE)
    (challenger : Chal) (l : List (Nat × ChipName × SegmentProof C EF)) :
    ∀ call ∈ (verifySegLoop vVerify challenger l).1,
      call.2.1 = challenger ∧
      ∃ x ∈ l, call = (chips_v2 x.1 x.2.2.n, challenger, x.2.2) := by
  induction l with
  | nil => simp [verifySegLoop]
  | cons hd tl ih =>
    obtain ⟨i, chip, proof⟩ := hd
    intro call hcall
    simp only [verifySegLoop] at hcall
    cases h : vVerify (chips_v2 i proof.n) challenger proof with
    | some e =>
      rw [h] at hcall
      simp only [List.mem_singleton] at hcall
      subst hcall
      exact ⟨rfl, ⟨(i, chip, proof), by simp⟩⟩
    | none =>
      rw [h] at hcall
      simp only [List.mem_cons] at hcall
      rcases hcall with hcall | hcall
      · subst hcall
        exact ⟨rfl, ⟨(i, chip, proof), by simp⟩⟩
      · obtain ⟨h1, x, hx, hx2⟩ := ih call hcall
        exact ⟨h1, x, by simp [hx], hx2⟩

theorem verifySegLoop_calls_all_pass {C EF VE Chal : Type}
    (vVerify : List ChipName → Chal → SegmentProof C EF → Option VE)
    (challenger : Chal) (l : List (Nat × ChipName × SegmentProof C EF))
    (hall : ∀ x ∈ l, segCheck vVerify challenger x = none) :
    (verifySegLoop vVerify challenger l).1 =
      l.map (fun x => (chips_v2 x.1 x.2.2.n, challenger, x.2.2)) := by
  induction l with
  | nil => simp [verifySegLoop]
  | cons hd tl ih =>
    obtain ⟨i, chip, proof⟩ := hd
    have hhd : vVerify (chips_v2 i proof.n) challenger proof = none := by
      simpa [segCheck] using hall (i, chip, proof) (by simp)
    simp only [verifySegLoop, hhd, List.map_cons]
    exact congrArg _ (ih (fun y hy => hall y (by simp [hy])))

theorem foldl_add_map_sum {α EF : Type} [AddCommMonoid EF]
    (f : α → EF) (l : List α) (a : EF) :
    l.foldl (fun s x => s + f x) a = a + (l.map f).sum := by
  induction l generalizing a with
  | nil => simp
  | cons hd tl ih => simp [ih, add_assoc]

/-- The cumulative sum computed under `perf` is the sum of every supplied
segment proof's per-shard cumulative sums plus the global proof's. -/
theorem verifySum_perf {C EF : Type} [AddCommMonoid EF]
    (segments_proofs : List (SegmentProof C EF))
    (global_proof : SegmentProof C EF) :
    verifySum true segments_proofs global_proof =
      (segments_proofs.map (fun p => p.commulative_sums.sum)).sum
        + global_proof.commulative_sums.sum := by
  simp [verifySum, foldl_add_map_sum]

/-!
## Structural facts about `Runtime.verify`
-/

theorem verify_challenger_eq {C EF VE Chal : Type} [AddCommMonoid EF]
    [DecidableEq EF] (perf : Bool) (observe : Chal → C → Chal)
    (vVerify : List ChipName → Chal → SegmentProof C EF → Option VE)
    (challenger : Chal) (segments_proofs : List (SegmentProof C EF))
    (global_proof : SegmentProof C EF) :
    (Runtime.verify perf observe vVerify challenger segments_proofs
        global_proof).challenger
      = postObserve perf observe challenger segments_proofs := by
  simp only [Runtime.verify]
  cases hs : (verifySegLoop vVerify
      (postObserve perf observe challenger segments_proofs)
      (Runtime.segment_chips.zip segments_proofs).enum).2 with
  | some e => simp
  | none =>
    cases hg : vVerify Runtime.global_chips
        (postObserve perf observe challenger segments_proofs) global_proof with
    | some e => simp
    | none => simp

theorem verify_segCalls_eq {C EF VE Chal : Type} [AddCommMonoid EF]
    [DecidableEq EF] (perf : Bool) (observe : Chal → C → Chal)
    (vVerify : List ChipName → Chal → SegmentProof C EF → Option VE)
    (challenger : Chal) (segments_proofs : List (SegmentProof C EF))
    (global_proof : SegmentProof C EF) :
    (Runtime.verify perf observe vVerify challenger segments_proofs
        global_proof).segCalls
      = (verifySegLoop vVerify
          (postObserve perf observe challenger segments_proofs)
          (Runtime.segment_chips.zip segments_proofs).enum).1 := by
  simp only [Runtime.verify]
  cases hs : (verifySegLoop vVerify
      (postObserve perf observe challenger segments_proofs)
      (Runtime.segment_chips.zip segments_proofs).enum).2 with
  | some e => simp
  | none =>
    cases hg : vVerify Runtime.global_chips
        (postObserve perf observe challenger segments_proofs) global_proof with
    | some e => simp
    | none => simp

theorem verify_globalCall_mem {C EF VE Chal : Type} [AddCommMonoid EF]
    [DecidableEq EF] (perf : Bool) (observe : Chal → C → Chal)
    (vVerify : List ChipName → Chal → SegmentProof C EF → Option VE)
    (challenger : Chal) (segments_proofs : List (SegmentProof C EF))
    (global_proof : SegmentProof C EF) :
    ∀ call ∈ (Runtime.verify perf observe vVerify challenger segments_proofs
        global_proof).globalCall,
      call = (Runtime.global_chips,
        postObserve perf observe challenger segments_proofs, global_proof) := by
  simp only [Runtime.verify]
  cases hs : (verifySegLoop vVerify
      (postObserve perf observe challenger segments_proofs)
      (Runtime.segment_chips.zip segments_proofs).enum).2 with
  | some e => simp
  | none =>
    cases hg : vVerify Runtime.global_chips
        (postObserve perf observe challenger segments_proofs) global_proof with
    | some e => simp
    | none => simp

/-- C1: For every call to `verify` (compiled with the `perf` feature, the
configuration in which the cumulative sums are accumulated) in which all
per-chip and global proof checks succeed, `verify` returns `Ok(())` exactly
when the sum, over the extension field, of every segment proof's per-shard
cumulative sums plus the global proof's per-shard cumulative sums equals
zero, and returns `Err(NonZeroCommulativeSum)` exactly when that total is
nonzero. -/
theorem verify_cumulative_sum_decides {C EF VE Chal : Type} [AddCommMonoid EF]
    [DecidableEq EF] (observe : Chal → C → Chal)
    (vVerify : List ChipName → Chal → SegmentProof C EF → Option VE)
    (challenger : Chal) (segments_proofs : List (SegmentProof C EF))
    (global_proof : SegmentProof C EF)
    (hAll : ∀ chips ch p, vVerify chips ch p = none) :
    ((Runtime.verify true observe vVerify challenger segments_proofs
          global_proof).result = Except.ok () ↔
      (segments_proofs.map (fun p => p.commulative_sums.sum)).sum
          + global_proof.commulative_sums.sum = 0) ∧
    ((Runtime.verify true observe vVerify challenger segments_proofs
          global_proof).result
        = Except.error ProgramVerificationError.NonZeroCommulativeSum ↔
      (segments_proofs.map (fun p => p.commulative_sums.sum)).sum
          + global_proof.commulative_sums.sum ≠ 0) := by
  have hseg : (verifySegLoop vVerify
      (postObserve true observe challenger segments_proofs)
      (Runtime.segment_chips.zip segments_proofs).enum).2 = none :=
    (verifySegLoop_snd_none_iff _ _ _).mpr (fun x _ => hAll _ _ _)
  have hres : (Runtime.verify true observe vVerify challenger segments_proofs
      global_proof).result
      = if verifySum true segments_proofs global_proof = (0 : EF) then
          Except.ok ()
        else Except.error ProgramVerificationError.NonZeroCommulativeSum := by
    simp [Runtime.verify, hseg, hAll]
  rw [hres, verifySum_perf]
  by_cases hz : (segments_proofs.map (fun p => p.commulative_sums.sum)).sum
      + global_proof.commulative_sums.sum = 0
  · simp [hz]
  · simp [hz]

/-- Witness for C1: with a trivially accepting sub-verifier and a global
proof whose single cumulative sum is `1 ≠ 0`, `verify` rejects with
`NonZeroCommulativeSum`. -/
theorem verify_cumulative_sum_decides_witness :
    (Runtime.verify true (fun (ch : Unit) (_ : Nat) => ch)
        (fun _ _ _ => (none : Option Unit)) () []
        ⟨⟨0⟩, 1, [(1 : Int)]⟩).result
      = Except.error ProgramVerificationError.NonZeroCommulativeSum :=
  (verify_cumulative_sum_decides (fun ch _ => ch)
      (fun _ _ _ => (none : Option Unit)) () []
      ⟨⟨0⟩, 1, [(1 : Int)]⟩ (fun _ _ _ => rfl)).2.mpr (by decide)

/-- C4: `verify` never recovers from a failure: the first zipped chip whose
per-shard check fails aborts the whole call with
`Err(InvalidSegmentProof(_))` carrying that chip's verification error, and
the result is independent of (in particular, no check is performed for) any
later chip; a failing global check (after all segment checks pass) aborts
with `Err(InvalidGlobalProof(_))`; and every `verify` call returns either
`Ok(())` or exactly one of the three variants `InvalidSegmentProof`,
`InvalidGlobalProof`, `NonZeroCommulativeSum`. -/
theorem verify_short_circuit {C EF VE Chal : Type} [AddCommMonoid EF]
    [DecidableEq EF] (perf : Bool) (observe : Chal → C → Chal)
    (vVerify : List ChipName → Chal → SegmentProof C EF → Option VE)
    (challenger : Chal) (segments_proofs : List (SegmentProof C EF))
    (global_proof : SegmentProof C EF) :
    (∀ (l₁ l₂ : List (Nat × ChipName × SegmentProof C EF))
        (x : Nat × ChipName × SegmentProof C EF) (e : VE),
      (Runtime.segment_chips.zip segments_proofs).enum = l₁ ++ x :: l₂ →
      (∀ y ∈ l₁, segCheck vVerify
          (postObserve perf observe challenger segments_proofs) y = none) →
      segCheck vVerify (postObserve perf observe challenger segments_proofs) x
          = some e →
      (Runtime.verify perf observe vVerify challenger segments_proofs
          global_proof).result
        = Except.error (ProgramVerificationError.InvalidSegmentProof e)) ∧
    (∀ e : VE,
      (∀ y ∈ (Runtime.segment_chips.zip segments_proofs).enum,
        segCheck vVerify
          (postObserve perf observe challenger segments_proofs) y = none) →
      vVerify Runtime.global_chips
          (postObserve perf observe challenger segments_proofs) global_proof
        = some e →
      (Runtime.verify perf observe vVerify challenger segments_proofs
          global_proof).result
        = Except.error (ProgramVerificationError.InvalidGlobalProof e)) ∧
    ((Runtime.verify perf observe vVerify challenger segments_proofs
        global_proof).result = Except.ok () ∨
      (∃ e, (Runtime.verify perf observe vVerify challenger segments_proofs
          global_proof).result
        = Except.error (ProgramVerificationError.InvalidSegmentProof e)) ∨
      (∃ e, (Runtime.verify perf observe vVerify challenger segments_proofs
          global_proof).result
        = Except.error (ProgramVerificationError.InvalidGlobalProof e)) ∨
      (Runtime.verify perf observe vVerify challenger segments_proofs
          global_proof).result
        = Except.error ProgramVerificationError.NonZeroCommulativeSum) := by
  refine ⟨?_, ?_, ?_⟩
  · intro l₁ l₂ x e heq hpass hfail
    have hsnd := verifySegLoop_first_fail vVerify
      (postObserve perf observe challenger segments_proofs) l₁ l₂ x e hpass hfail
    simp [Runtime.verify, heq, hsnd]
  · intro e hall hg
    have hsnd : (verifySegLoop vVerify
        (postObserve perf observe challenger segments_proofs)
        (Runtime.segment_chips.zip segments_proofs).enum).2 = none :=
      (verifySegLoop_snd_none_iff _ _ _).mpr hall
    simp [Runtime.verify, hsnd, hg]
  · cases hs : (verifySegLoop vVerify
        (postObserve perf observe challenger segments_proofs)
        (Runtime.segment_chips.zip segments_proofs).enum).2 with
    | some e =>
      refine Or.inr (Or.inl ⟨e, ?_⟩)
      simp [Runtime.verify, hs]
    | none =>
      cases hg : vVerify Runtime.global_chips
          (postObserve perf observe challenger segments_proofs) global_proof with
      | some e =>
        refine Or.inr (Or.inr (Or.inl ⟨e, ?_⟩))
        simp [Runtime.verify, hs, hg]
      | none =>
        by_cases hz : verifySum perf segments_proofs global_proof = (0 : EF)
        · refine Or.inl ?_
          simp [Runtime.verify, hs, hg, hz]
        · refine Or.inr (Or.inr (Or.inr ?_))
          simp [Runtime.verify, hs, hg, hz]

/-- Witness for C4: a sub-verifier that rejects every proof makes `verify`
abort on the very first zipped chip (the program chip, index 0) with
`InvalidSegmentProof` carrying that chip's error. -/
theorem verify_short_circuit_witness :
    (Runtime.verify true (fun (ch : Unit) (_ : Nat) => ch)
        (fun _ _ _ => some 7) () [⟨⟨0⟩, 2, ([] : List Int)⟩]
        ⟨⟨0⟩, 1, []⟩).result
      = Except.error (ProgramVerificationError.InvalidSegmentProof 7) :=
  (verify_short_circuit true (fun ch _ => ch) (fun _ _ _ => some 7) ()
      [⟨⟨0⟩, 2, ([] : List Int)⟩] ⟨⟨0⟩, 1, []⟩).1 [] []
    (0, ChipName.program, ⟨⟨0⟩, 2, []⟩) 7 (by decide) (by simp) rfl

/-- C3: In both `prove` and `verify`, every per-chip sub-protocol and the
global sub-protocol operates on a clone of the shared challenger taken after
all commitment observations of that call, and no sub-protocol advances the
shared challenger itself: every recorded sub-call's challenger state equals
the post-observation state (so all clones within one call start from the
identical transcript state), and the caller's challenger on return equals
exactly the post-observation state — an expression independent of the
sub-protocol oracles. -/
theorem challenger_clone_discipline {C EF VE Chal : Type}
    {Seg2 C2 PD2 Trace2 Pf2 Chal2 : Type} [AddCommMonoid EF] [DecidableEq EF]
    (perf : Bool) (observe : Chal → C → Chal)
    (vVerify : List ChipName → Chal → SegmentProof C EF → Option VE)
    (challenger : Chal) (segments_proofs : List (SegmentProof C EF))
    (global_proof : SegmentProof C EF)
    (O : ProveOracle Seg2 C2 PD2 Trace2 Pf2 Chal2)
    (segment global_segment : Seg2) (pchallenger : Chal2) :
    ((Runtime.verify perf observe vVerify challenger segments_proofs
        global_proof).challenger
      = postObserve perf observe challenger segments_proofs) ∧
    (∀ call ∈ (Runtime.verify perf observe vVerify challenger segments_proofs
        global_proof).segCalls,
      call.2.1 = postObserve perf observe challenger segments_proofs) ∧
    (∀ call ∈ (Runtime.verify perf observe vVerify challenger segments_proofs
        global_proof).globalCall,
      call.2.1 = postObserve perf observe challenger segments_proofs) ∧
    ((Runtime.prove O segment global_segment pchallenger).challenger
      = proveChallenger1 O segment pchallenger) ∧
    (∀ c ∈ (Runtime.prove O segment global_segment pchallenger).subChallengers,
      c = proveChallenger1 O segment pchallenger) := by
  refine ⟨verify_challenger_eq perf observe vVerify challenger segments_proofs
    global_proof, ?_, ?_, rfl, ?_⟩
  · intro call hcall
    rw [verify_segCalls_eq] at hcall
    exact (verifySegLoop_calls_mem vVerify _ _ call hcall).1
  · intro call hcall
    rw [verify_globalCall_mem perf observe vVerify challenger segments_proofs
      global_proof call hcall]
  · intro c hc
    simp only [Runtime.prove, List.mem_append, List.mem_map,
      List.mem_singleton] at hc
    rcases hc with ⟨md, _, rfl⟩ | rfl <;> rfl

/-- Witness for C3: a concrete `verify` call with one proof; its single
per-segment sub-call starts from the post-observation state `0 + 5 = 5`, and
a concrete `prove` call whose first sub-call challenger equals the
post-observation fold. -/
theorem challenger_clone_discipline_witness :
    ((Runtime.verify true
        (fun (ch : Nat) (c : Nat) => ch + c) (fun _ _ _ => (none : Option Unit))
        0 ([⟨⟨5⟩, 1, []⟩] : List (SegmentProof Nat Int))
        ⟨⟨7⟩, 1, []⟩).challenger
      = postObserve true (fun ch c => ch + c) 0
          ([⟨⟨5⟩, 1, []⟩] : List (SegmentProof Nat Int))) ∧
    ((chips_v2 0 1, (5 : Nat), (⟨⟨5⟩, 1, []⟩ : SegmentProof Nat Int)).2.1
      = postObserve true (fun ch c => ch + c) 0
          ([⟨⟨5⟩, 1, []⟩] : List (SegmentProof Nat Int))) := by
  have h := challenger_clone_discipline true
    (fun (ch : Nat) (c : Nat) => ch + c) (fun _ _ _ => (none : Option Unit)) 0
    ([⟨⟨5⟩, 1, []⟩] : List (SegmentProof Nat Int)) ⟨⟨7⟩, 1, []⟩
    oracleUnit () () ()
  exact ⟨h.1, h.2.1 (chips_v2 0 1, 5, ⟨⟨5⟩, 1, []⟩) (by decide)⟩


/-!
## Ordering of the `prove` event trace
-/

theorem filterMap_of_none {α β : Type} (f : α → Option β) (l : List α)
    (h : ∀ a, f a = none) : l.filterMap f = [] := by
  simp [h]

theorem filterMap_of_some {α β : Type} (f : α → Option β) (g : α → β)
    (l : List α) (h : ∀ a, f a = some (g a)) : l.filterMap f = l.map g := by
  induction l with
  | nil => rfl
  | cons hd tl ih => simp [List.filterMap_cons, h, ih]

theorem proveMainDatas_length {Seg C PD Trace Pf Chal : Type}
    (O : ProveOracle Seg C PD Trace Pf Chal) (segment : Seg) :
    (proveMainDatas O segment).length = NUM_CHIPS := by
  simp [proveMainDatas, Runtime.segment_chips, NUM_CHIPS]

theorem prove_events_map_phase {Seg C PD Trace Pf Chal : Type}
    (O : ProveOracle Seg C PD Trace Pf Chal)
    (segment global_segment : Seg) (challenger : Chal) :
    (Runtime.prove O segment global_segment challenger).events.map phaseOf
      = List.replicate NUM_CHIPS 0 ++ List.replicate NUM_CHIPS 1
          ++ List.replicate NUM_CHIPS 2 ++ [3, 4] := by
  have hlen := proveMainDatas_length O segment
  simp only [Runtime.prove, List.map_append, List.map_map]
  simp [Function.comp_def, phaseOf, List.map_const', hlen]

/-- C2: In every `prove` call, the commitments of all 20 local chips are
observed into the shared challenger in registry order (the observation
events carry exactly the indices `0, …, 19` in that order), all such
observations complete before any per-chip sub-protocol begins, and the
global-chip commitment and proof are produced sequentially after all local
per-chip proofs: the event trace is monotone in protocol phase
(commit ≤ observe ≤ local sub-protocol ≤ global commit ≤ global proof), so
no local sub-protocol event precedes any observation event and the global
events follow every local-proof event. -/
theorem prove_two_barriers {Seg C PD Trace Pf Chal : Type}
    (O : ProveOracle Seg C PD Trace Pf Chal)
    (segment global_segment : Seg) (challenger : Chal) :
    ((Runtime.prove O segment global_segment challenger).events.filterMap
        observeIdx = List.range NUM_CHIPS) ∧
    ((Runtime.prove O segment global_segment challenger).events.filterMap
        localProveIdx = List.range NUM_CHIPS) ∧
    List.Pairwise (fun a b => phaseOf a ≤ phaseOf b)
      (Runtime.prove O segment global_segment challenger).events := by
  have hlen := proveMainDatas_length O segment
  refine ⟨?_, ?_, ?_⟩
  · have h1 : (List.range NUM_CHIPS).filterMap
        (observeIdx (C := C) ∘ ProveEvent.commit_chip) = [] :=
      filterMap_of_none _ _ (fun a => rfl)
    have h2 : (proveMainDatas O segment).enum.filterMap
        (observeIdx ∘ fun p => ProveEvent.observe_commit p.1 p.2.main_commit)
        = (proveMainDatas O segment).enum.map Prod.fst :=
      filterMap_of_some _ _ _ (fun a => rfl)
    have h3 : (List.range NUM_CHIPS).filterMap
        (observeIdx (C := C) ∘ ProveEvent.local_prove) = [] :=
      filterMap_of_none _ _ (fun a => rfl)
    simp only [Runtime.prove, List.filterMap_append, List.filterMap_map,
      h1, h2, h3]
    simp [List.filterMap_cons, observeIdx, List.enum_map_fst, hlen]
  · have h1 : (List.range NUM_CHIPS).filterMap
        (localProveIdx (C := C) ∘ ProveEvent.commit_chip) = [] :=
      filterMap_of_none _ _ (fun a => rfl)
    have h2 : (proveMainDatas O segment).enum.filterMap
        (localProveIdx ∘ fun p => ProveEvent.observe_commit p.1 p.2.main_commit)
        = [] :=
      filterMap_of_none _ _ (fun a => rfl)
    have h3 : (List.range NUM_CHIPS).filterMap
        (localProveIdx (C := C) ∘ ProveEvent.local_prove)
        = (List.range NUM_CHIPS).map (fun i => i) :=
      filterMap_of_some _ _ _ (fun a => rfl)
    simp only [Runtime.prove, List.filterMap_append, List.filterMap_map,
      h1, h2, h3]
    simp [List.filterMap_cons, localProveIdx]
  · have hmap := prove_events_map_phase O segment global_segment challenger
    have hp : (List.map phaseOf
        (Runtime.prove O segment global_segment challenger).events).Pairwise
          (fun a b => a ≤ b) := by
      rw [hmap]
      decide
    exact (List.pairwise_map).mp hp

/-- C6: For every chip processed in `prove`, the shard count `n` stored in
its `MainData` equals the length of the shard list returned by `chip.shard`
and equals the number of committed trace matrices in `MainData.traces`; and
in `verify`, for every performed per-segment sub-call, exactly `proof.n`
per-shard chip instances are constructed and checked against that proof (the
count is taken from the proof's own `n` field, not from a recomputed
trace). -/
theorem shard_count_consistent {C EF VE Chal : Type}
    {Seg2 C2 PD2 Trace2 Pf2 Chal2 : Type} [AddCommMonoid EF] [DecidableEq EF]
    (perf : Bool) (observe : Chal → C → Chal)
    (vVerify : List ChipName → Chal → SegmentProof C EF → Option VE)
    (challenger : Chal) (segments_proofs : List (SegmentProof C EF))
    (global_proof : SegmentProof C EF)
    (O : ProveOracle Seg2 C2 PD2 Trace2 Pf2 Chal2)
    (segment global_segment : Seg2) (pchallenger : Chal2) :
    (∀ chip : ChipName,
      (commitChip O (fillPass O segment) chip).n
          = (O.shard chip (fillPass O segment)).length ∧
      (commitChip O (fillPass O segment) chip).traces.length
          = (O.shard chip (fillPass O segment)).length) ∧
    ((Runtime.prove O segment global_segment pchallenger).main_datas
        = Runtime.segment_chips.map (commitChip O (fillPass O segment))) ∧
    (∀ md ∈ (Runtime.prove O segment global_segment pchallenger).main_datas,
        md.traces.length = md.n) ∧
    (∀ call ∈ (Runtime.verify perf observe vVerify challenger segments_proofs
        global_proof).segCalls, call.1.length = call.2.2.n) := by
  refine ⟨?_, rfl, ?_, ?_⟩
  · intro chip
    constructor
    · rfl
    · simp [commitChip]
  · intro md hmd
    simp only [Runtime.prove, proveMainDatas, List.mem_map] at hmd
    obtain ⟨chip, _, rfl⟩ := hmd
    simp [commitChip]
  · intro call hcall
    rw [verify_segCalls_eq] at hcall
    obtain ⟨-, x, -, rfl⟩ := verifySegLoop_calls_mem vVerify _ _ call hcall
    simp [chips_v2]
/-- Witness for C6: with `oracleExample` (whose `shard` returns two shards
for every chip) the cpu chip's `MainData` has `n = 2`, and a concrete
`verify` call's single sub-call carries `proof.n = 3` chip instances. -/
theorem shard_count_consistent_witness :
    ((commitChip oracleExample (fillPass oracleExample 0) ChipName.cpu).n = 2) ∧
    (([ChipName.program, ChipName.program, ChipName.program], (0 : Nat),
        (⟨⟨0⟩, 3, []⟩ : SegmentProof Nat Int)).1.length
      = (⟨⟨0⟩, 3, ([] : List Int)⟩ : SegmentProof Nat Int).n) := by
  have h := shard_count_consistent true
    (fun (ch : Nat) (c : Nat) => ch + c) (fun _ _ _ => (none : Option Unit)) 0
    ([⟨⟨0⟩, 3, []⟩] : List (SegmentProof Nat Int)) ⟨⟨0⟩, 3, []⟩
    oracleExample 0 0 ()
  refine ⟨?_, ?_⟩
  · rw [(h.1 ChipName.cpu).1]
    rfl
  · exact h.2.2.2
      ([ChipName.program, ChipName.program, ChipName.program], 0, ⟨⟨0⟩, 3, []⟩)
      (by decide)

/-- C8: Within one `prove` call, the execution record `self.segment` is
mutated only during the initial fill pass in which every chip's
`generate_trace` is applied to it once: the segment state on return equals
the fill-pass result alone, and it is unchanged if the sharding, commitment
and proving oracles are replaced arbitrarily (keeping `generate_trace`) —
the shard-and-commit phase mutates only the per-shard copies, never the
segment itself. -/
theorem segment_mutated_only_in_fill {Seg C PD Trace Pf Chal : Type}
    (O O' : ProveOracle Seg C PD Trace Pf Chal)
    (hgen : O.generate_trace = O'.generate_trace)
    (segment global_segment : Seg) (challenger : Chal) :
    ((Runtime.prove O segment global_segment challenger).segment
      = fillPass O segment) ∧
    ((Runtime.prove O segment global_segment challenger).segment
      = (Runtime.prove O' segment global_segment challenger).segment) := by
  constructor
  · rfl
  · show fillPass O segment = fillPass O' segment
    simp [fillPass, hgen]

/-- Witness for C8: `oracleExample` and a variant of it with a different
`shard`, `commit` and `prove` behaviour produce the same final segment,
equal to the fill-pass result. -/
theorem segment_mutated_only_in_fill_witness :
    ((Runtime.prove oracleExample 0 0 ()).segment = fillPass oracleExample 0) ∧
    ((Runtime.prove oracleExample 0 0 ()).segment
      = (Runtime.prove
          { generate_trace := fun _ s => (s, s + 1)
            shard := fun _ _ => []
            commit_batches := fun _ => (99, ())
            observe := fun ch _ => ch
            prover_prove := fun _ _ _ => ()
            commit_main := fun _ s => (⟨[], 7, (), 5⟩, s + 3) } 0 0 ()).segment) :=
  segment_mutated_only_in_fill oracleExample
    { generate_trace := fun _ s => (s, s + 1)
      shard := fun _ _ => []
      commit_batches := fun _ => (99, ())
      observe := fun ch _ => ch
      prover_prove := fun _ _ _ => ()
      commit_main := fun _ s => (⟨[], 7, (), 5⟩, s + 3) } rfl 0 0 ()

/-- C9: When the crate is compiled without the `perf` feature, `verify`
neither observes any proof commitment into the challenger (the caller's
challenger is returned unchanged) nor accumulates any cumulative sums: the
final sum compared against zero is identically zero, so
`Err(NonZeroCommulativeSum)` is unreachable and the outcome of `verify` is
decided solely by the per-chip and global `Verifier::verify` calls —
`Ok(())` exactly when every zipped per-chip check and the global check
succeed. -/
theorem verify_without_perf {C EF VE Chal : Type} [AddCommMonoid EF]
    [DecidableEq EF] (observe : Chal → C → Chal)
    (vVerify : List ChipName → Chal → SegmentProof C EF → Option VE)
    (challenger : Chal) (segments_proofs : List (SegmentProof C EF))
    (global_proof : SegmentProof C EF) :
    ((Runtime.verify false observe vVerify challenger segments_proofs
        global_proof).challenger = challenger) ∧
    ((Runtime.verify false observe vVerify challenger segments_proofs
        global_proof).result
      ≠ Except.error ProgramVerificationError.NonZeroCommulativeSum) ∧
    ((Runtime.verify false observe vVerify challenger segments_proofs
        global_proof).result = Except.ok () ↔
      ((∀ x ∈ (Runtime.segment_chips.zip segments_proofs).enum,
          segCheck vVerify challenger x = none) ∧
        vVerify Runtime.global_chips challenger global_proof = none)) := by
  have hpost : postObserve false observe challenger segments_proofs
      = challenger := rfl
  refine ⟨verify_challenger_eq false observe vVerify challenger
    segments_proofs global_proof, ?_, ?_⟩
  · cases hs : (verifySegLoop vVerify challenger
        (Runtime.segment_chips.zip segments_proofs).enum).2 with
    | some e => simp [Runtime.verify, postObserve, hs]
    | none =>
      cases hg : vVerify Runtime.global_chips challenger global_proof with
      | some e => simp [Runtime.verify, postObserve, hs, hg]
      | none => simp [Runtime.verify, postObserve, hs, hg, verifySum]
  · cases hs : (verifySegLoop vVerify challenger
        (Runtime.segment_chips.zip segments_proofs).enum).2 with
    | some e =>
      have hnall : ¬ ∀ x ∈ (Runtime.segment_chips.zip segments_proofs).enum,
          segCheck vVerify challenger x = none := by
        intro hall
        rw [(verifySegLoop_snd_none_iff _ _ _).mpr hall] at hs
        exact Option.noConfusion hs
      refine ⟨fun h => absurd h ?_, ?_⟩
      · simp [Runtime.verify, postObserve, hs]
      · rintro ⟨hall, -⟩
        exact (hnall hall).elim
    | none =>
      cases hg : vVerify Runtime.global_chips challenger global_proof with
      | some e =>
        refine ⟨fun h => absurd h ?_, ?_⟩
        · simp [Runtime.verify, postObserve, hs, hg]
        · rintro ⟨-, hgnone⟩
          exact Option.noConfusion hgnone
      | none =>
        refine ⟨fun _ => ⟨(verifySegLoop_snd_none_iff _ _ _).mp hs, rfl⟩, ?_⟩
        intro _
        simp [Runtime.verify, postObserve, hs, hg, verifySum]

/-- Witness for C9: without `perf`, a `verify` call whose proofs carry a
nonzero cumulative sum still returns `Ok(())` when every sub-check passes,
and the challenger is untouched. -/
theorem verify_without_perf_witness :
    (Runtime.verify false (fun (ch : Nat) (c : Nat) => ch + c)
        (fun _ _ _ => (none : Option Unit)) 0 [⟨⟨5⟩, 1, [(1 : Int)]⟩]
        ⟨⟨7⟩, 1, [(2 : Int)]⟩).result = Except.ok () ∧
    (Runtime.verify false (fun (ch : Nat) (c : Nat) => ch + c)
        (fun _ _ _ => (none : Option Unit)) 0 [⟨⟨5⟩, 1, [(1 : Int)]⟩]
        ⟨⟨7⟩, 1, [(2 : Int)]⟩).challenger = 0 := by
  have h := verify_without_perf
    (fun (ch : Nat) (c : Nat) => ch + c) (fun _ _ _ => (none : Option Unit)) 0
    [⟨⟨5⟩, 1, [(1 : Int)]⟩] ⟨⟨7⟩, 1, [(2 : Int)]⟩
  exact ⟨h.2.2.mpr ⟨fun x _ => rfl, rfl⟩, h.1⟩

/-- Counterexample for C10 as stated: proofs beyond the 20th are NOT ignored.
With a sub-verifier that accepts everything, appending a 21st proof whose
cumulative sum is `1` flips the outcome from `Ok(())` to
`Err(NonZeroCommulativeSum)`: the 21st proof is never checked against a chip,
but its cumulative sums still enter the final zero-sum check (and, under
`perf`, its commitment is still observed). -/
theorem verify_extra_proof_not_ignored :
    (Runtime.verify true (fun (ch : Unit) (_ : Nat) => ch)
        (fun _ _ _ => (none : Option Unit)) ()
        (List.replicate 20 (⟨⟨0⟩, 1, []⟩ : SegmentProof Nat Int)
          ++ [⟨⟨0⟩, 1, [1]⟩]) ⟨⟨0⟩, 1, []⟩).result
      = Except.error ProgramVerificationError.NonZeroCommulativeSum ∧
    (Runtime.verify true (fun (ch : Unit) (_ : Nat) => ch)
        (fun _ _ _ => (none : Option Unit)) ()
        (List.replicate 20 (⟨⟨0⟩, 1, []⟩ : SegmentProof Nat Int))
        ⟨⟨0⟩, 1, []⟩).result = Except.ok () := by
  constructor
  · rfl
  · rfl

/-- C10 (amended): `verify` performs no check that the number of supplied
segment proofs equals the number of registry chips: it pairs the 20 registry
chips with `segments_proofs` by zip, so exactly `min 20 (number of proofs)`
per-chip sub-checks are performed — if fewer than 20 proofs are supplied the
unmatched chips are silently skipped (no error is returned for the missing
proofs) and proofs beyond the 20th are never checked against any chip; the
extra proofs are however not ignored: their commitments are still observed
into the challenger and their cumulative sums still enter the final
zero-sum check, whose outcome alone decides the result when every performed
check passes. -/
theorem verify_zip_no_length_check {C EF VE Chal : Type} [AddCommMonoid EF]
    [DecidableEq EF] (perf : Bool) (observe : Chal → C → Chal)
    (vVerify : List ChipName → Chal → SegmentProof C EF → Option VE)
    (challenger : Chal) (segments_proofs : List (SegmentProof C EF))
    (global_proof : SegmentProof C EF)
    (hAll : ∀ chips ch p, vVerify chips ch p = none) :
    ((Runtime.verify perf observe vVerify challenger segments_proofs
        global_proof).segCalls.length = min NUM_CHIPS segments_proofs.length) ∧
    ((Runtime.verify perf observe vVerify challenger segments_proofs
        global_proof).challenger
      = postObserve perf observe challenger segments_proofs) ∧
    ((Runtime.verify perf observe vVerify challenger segments_proofs
        global_proof).result = Except.ok () ↔
      verifySum perf segments_proofs global_proof = 0) := by
  have hall : ∀ x ∈ (Runtime.segment_chips.zip segments_proofs).enum,
      segCheck vVerify (postObserve perf observe challenger segments_proofs) x
        = none := fun x _ => hAll _ _ _
  have hseg := (verifySegLoop_snd_none_iff vVerify
    (postObserve perf observe challenger segments_proofs)
    (Runtime.segment_chips.zip segments_proofs).enum).mpr hall
  refine ⟨?_, verify_challenger_eq perf observe vVerify challenger
    segments_proofs global_proof, ?_⟩
  · rw [verify_segCalls_eq, verifySegLoop_calls_all_pass _ _ _ hall]
    have h20 : Runtime.segment_chips.length = NUM_CHIPS := rfl
    simp [List.length_zip, h20]
  · have hres : (Runtime.verify perf observe vVerify challenger
        segments_proofs global_proof).result
        = if verifySum perf segments_proofs global_proof = (0 : EF) then
            Except.ok ()
          else Except.error ProgramVerificationError.NonZeroCommulativeSum := by
      simp [Runtime.verify, hseg, hAll]
    rw [hres]
    by_cases hz : verifySum perf segments_proofs global_proof = (0 : EF)
    · simp [hz]
    · simp [hz]

/-- Witness for C10 (amended): with only 2 supplied proofs, exactly
`min 20 2 = 2` per-chip checks are performed and `verify` still returns
`Ok(())` — missing proofs raise no error. -/
theorem verify_zip_no_length_check_witness :
    ((Runtime.verify true (fun (ch : Unit) (_ : Nat) => ch)
        (fun _ _ _ => (none : Option Unit)) ()
        [⟨⟨0⟩, 1, ([] : List Int)⟩, ⟨⟨1⟩, 1, []⟩]
        ⟨⟨0⟩, 1, []⟩).segCalls.length = min NUM_CHIPS 2) ∧
    ((Runtime.verify true (fun (ch : Unit) (_ : Nat) => ch)
        (fun _ _ _ => (none : Option Unit)) ()
        [⟨⟨0⟩, 1, ([] : List Int)⟩, ⟨⟨1⟩, 1, []⟩]
        ⟨⟨0⟩, 1, []⟩).result = Except.ok ()) := by
  have h := verify_zip_no_length_check true
    (fun (ch : Unit) (_ : Nat) => ch)
    (fun _ _ _ => (none : Option Unit)) ()
    [⟨⟨0⟩, 1, ([] : List Int)⟩, ⟨⟨1⟩, 1, []⟩]
    ⟨⟨0⟩, 1, []⟩ (fun _ _ _ => rfl)
  exact ⟨h.1, h.2.2.mpr (by decide)⟩
